import Mathlib

/-!
# Verification of the yt_scrape_tool persistence core

Shallow embedding of `src/yt_tool/database.py`: the metric parser
`_parse_views`, the store operations `save_results`, `add_tracked_query`,
`remove_tracked_query`, `get_tracked_queries`, `init_db`, and the two
analytic queries `get_trending` and `get_duplicates`.

Modelling conventions:
* Python strings are Lean `String` (a `List Char`); `str.lower()` is modelled
  for ASCII (the only case-sensitive data the parser inspects is ASCII).
* Python `float` is modelled exactly: a finite IEEE-754 double is a sign, a
  mantissa below 2 ^ 53 and a binary exponent; parsing a decimal literal and
  multiplying by a power of ten round the exact rational value to the nearest
  double (ties to even), overflowing to infinity, exactly as CPython does.
  All arithmetic is on `Nat`/`Int`, so every definition evaluates by `decide`.
* `int(f)` truncates toward zero; it raises `ValueError` on NaN (which
  `_parse_views` catches) and `OverflowError` on an infinity (which
  `_parse_views` does not catch): the uncaught case is the `PyRes.ovfl`
  outcome.
* The SQLite tables are lists of rows in insertion order.  `TEXT` comparison
  (used by `MAX(...)` and `ORDER BY recorded_at`) is the codepoint
  lexicographic order, which agrees with SQLite's BINARY collation on the
  data involved.  `REAL` percentages are modelled in exact hundredths
  (`ROUND(x, 2)` yields a multiple of 0.01; we carry the integer number of
  hundredths).
-/

/-- ASCII lowercasing of one character, modelling Python `str.lower()` on the
ASCII range (the parser only ever distinguishes ASCII letters). -/
def lowerChar (c : Char) : Char :=
  if c = 'A' then 'a' else if c = 'B' then 'b' else if c = 'C' then 'c'
  else if c = 'D' then 'd' else if c = 'E' then 'e' else if c = 'F' then 'f'
  else if c = 'G' then 'g' else if c = 'H' then 'h' else if c = 'I' then 'i'
  else if c = 'J' then 'j' else if c = 'K' then 'k' else if c = 'L' then 'l'
  else if c = 'M' then 'm' else if c = 'N' then 'n' else if c = 'O' then 'o'
  else if c = 'P' then 'p' else if c = 'Q' then 'q' else if c = 'R' then 'r'
  else if c = 'S' then 's' else if c = 'T' then 't' else if c = 'U' then 'u'
  else if c = 'V' then 'v' else if c = 'W' then 'w' else if c = 'X' then 'x'
  else if c = 'Y' then 'y' else if c = 'Z' then 'z' else c

/-- Lowercase a character list (Python `str.lower()`). -/
def lowerL (l : List Char) : List Char := l.map lowerChar

/-- Python whitespace stripped by `str.strip()` and by `float()`. -/
def isSpaceChar (c : Char) : Bool :=
  decide (c = ' ') || decide (c = '\t') || decide (c = '\n') ||
  decide (c = '\r') || decide (c = '\x0B') || decide (c = '\x0C')

/-- Strip leading whitespace. -/
def trimLeftL (l : List Char) : List Char := l.dropWhile isSpaceChar

/-- Python `str.strip()`: drop leading and trailing whitespace. -/
def trimL (l : List Char) : List Char :=
  ((trimLeftL l).reverse.dropWhile isSpaceChar).reverse

/-- The pattern removed by `replace("views", "")` (on lowercased text). -/
def viewsL : List Char := ['v', 'i', 'e', 'w', 's']

/-- Fuelled worker for `str.replace("views", "")`: left-to-right scan removing
non-overlapping occurrences.  The fuel only bounds recursion depth; with fuel
at least the list length the scan runs to completion. -/
def svGo : Nat → List Char → List Char
  | 0, l => l
  | _ + 1, [] => []
  | f + 1, c :: cs =>
    if List.take 5 (c :: cs) = viewsL then svGo f (List.drop 4 cs)
    else c :: svGo f cs

/-- `s.replace("views", "")` on an (already lowercased) character list. -/
def stripViews (l : List Char) : List Char := svGo l.length l

/-- Fuelled worker for the case-insensitive removal of the word "views"
(the spec's reading: occurrences are matched caselessly, the remaining
characters keep their case). -/
def svcGo : Nat → List Char → List Char
  | 0, l => l
  | _ + 1, [] => []
  | f + 1, c :: cs =>
    if lowerL (List.take 5 (c :: cs)) = viewsL then svcGo f (List.drop 4 cs)
    else c :: svcGo f cs

/-- Case-insensitive removal of every occurrence of the word "views". -/
def stripViewsCaseless (l : List Char) : List Char := svcGo l.length l

/-- `s.replace(",", "")`: drop every comma. -/
def dropComma (l : List Char) : List Char := l.filter (fun c => !(decide (c = ',')))

/-- A Python float: an exactly represented finite double (sign, mantissa,
binary exponent, value sgn * m * 2 ^ e), an infinity, or NaN. -/
inductive PyFloat where
  | finite (sgn : Bool) (m : Nat) (e : Int)
  | pinf
  | ninf
  | nan
deriving DecidableEq, Repr

/-- Round `n / d` (with `d > 0`) to the nearest natural, ties to even. -/
def roundMD (n d : Nat) : Nat :=
  let q := n / d
  let r := n % d
  if 2 * r < d then q
  else if d < 2 * r then q + 1
  else if q % 2 = 0 then q else q + 1

/-- Fuelled floor of log2 (kernel-reducible, unlike `Nat.log2`). -/
def nlog2F : Nat → Nat → Nat
  | 0, _ => 0
  | f + 1, n => if n ≤ 1 then 0 else nlog2F f (n / 2) + 1

/-- Floor of log2 of a positive natural. -/
def nlog2 (n : Nat) : Nat := nlog2F n n

/-- Floor of log2 of the positive rational `n / d`. -/
def qlog2ND (n d : Nat) : Int :=
  let a := nlog2 n
  let b := nlog2 d
  if d * 2 ^ a ≤ n * 2 ^ b then (a : Int) - b else (a : Int) - b - 1

/-- Round the exact positive rational `n / d` (sign `sgn`) to the nearest
IEEE-754 double: round to 53 significant bits (ties to even), gradual
underflow below 2 ^ (-1022), overflow to an infinity at 2 ^ 1024.  This is
the correctly-rounded conversion CPython's `float(...)` performs. -/
def pyRoundND (sgn : Bool) (n d : Nat) : PyFloat :=
  if n = 0 then .finite false 0 0
  else
    let e2 := max (qlog2ND n d - 52) (-1074)
    let m := if 0 ≤ e2 then roundMD n (d * 2 ^ e2.toNat)
             else roundMD (n * 2 ^ (-e2).toNat) d
    if m = 0 then .finite false 0 0
    else
      let m2 := if m = 2 ^ 53 then 2 ^ 52 else m
      let e3 := if m = 2 ^ 53 then e2 + 1 else e2
      if 2 ^ 2098 ≤ m2 * 2 ^ (e3 + 1074).toNat then
        (if sgn then .ninf else .pinf)
      else .finite sgn m2 e3

/-- ASCII decimal digit test. -/
def isDigitB (c : Char) : Bool := decide ('0' ≤ c ∧ c ≤ '9')

/-- No two adjacent underscores. -/
def noDUS : List Char → Bool
  | [] => true
  | [_] => true
  | a :: b :: r => !(decide (a = '_') && decide (b = '_')) && noDUS (b :: r)

/-- A valid Python digit run: nonempty, digits with single underscores strictly
between digits (PEP 515, as accepted by `float(...)`). -/
def validUS (l : List Char) : Bool :=
  (match l with | [] => false | c :: _ => isDigitB c) &&
  (match l.getLast? with | some c => isDigitB c | none => false) &&
  l.all (fun c => isDigitB c || decide (c = '_')) &&
  noDUS l

/-- Numeric value of a digit run (underscores skipped). -/
def digitsVal (l : List Char) : Nat :=
  (l.filter (fun c => !(decide (c = '_')))).foldl (fun a c => a * 10 + (c.toNat - 48)) 0

/-- Number of digits in a digit run (underscores skipped). -/
def digitsLen (l : List Char) : Nat :=
  (l.filter (fun c => !(decide (c = '_')))).length

/-- Split off everything before the first occurrence of `t`; the second
component is `some rest` when `t` occurred. -/
def splitFirst (t : Char) : List Char → List Char × Option (List Char)
  | [] => ([], none)
  | c :: cs =>
    if c = t then ([], some cs)
    else
      let p := splitFirst t cs
      (c :: p.1, p.2)

/-- Leading sign of a float literal: `(isNegative, rest)`. -/
def parseSign : List Char → Bool × List Char
  | '+' :: cs => (false, cs)
  | '-' :: cs => (true, cs)
  | l => (false, l)

/-- CPython `float(s)` on an already lowercased character list: strip
whitespace, optional sign, then `inf`/`infinity`/`nan` or a decimal literal
`[digits][.digits][e[sign]digits]` (underscores between digits allowed),
whose exact value is correctly rounded to a double.  `none` models the
`ValueError` raised on any other input. -/
def tokFloatL (l0 : List Char) : Option PyFloat :=
  let l := trimL l0
  let sg := parseSign l
  let neg := sg.1
  let body := sg.2
  if body = [] then none
  else if body = ['i', 'n', 'f'] ∨ body = "infinity".data then
    some (if neg then .ninf else .pinf)
  else if body = "nan".data then some .nan
  else
    let me := splitFirst 'e' body
    let mp := splitFirst '.' me.1
    let ip := mp.1
    let fp := (mp.2).getD []
    let mOK := (ip.isEmpty && validUS fp) || (fp.isEmpty && validUS ip) ||
               (validUS ip && validUS fp)
    if mOK then
      let evOK : Bool × Int :=
        match me.2 with
        | none => (true, 0)
        | some ex =>
          let sg2 := parseSign ex
          if validUS sg2.2 then
            (true, if sg2.1 then -(digitsVal sg2.2 : Int) else (digitsVal sg2.2 : Int))
          else (false, 0)
      if evOK.1 then
        let mant := digitsVal ip * 10 ^ digitsLen fp + digitsVal fp
        let ex10 := evOK.2 - (digitsLen fp : Int)
        some (if 0 ≤ ex10 then pyRoundND neg (mant * 10 ^ ex10.toNat) 1
              else pyRoundND neg mant (10 ^ (-ex10).toNat))
      else none
    else none

/-- Multiply a Python float by a positive integer constant (the k/m/b
multiplier): the exact product is rounded to the nearest double. -/
def pyMulNat (f : PyFloat) (k : Nat) : PyFloat :=
  match f with
  | .finite sgn m e =>
    if 0 ≤ e then pyRoundND sgn (m * 2 ^ e.toNat * k) 1
    else pyRoundND sgn (m * k) (2 ^ (-e).toNat)
  | x => x

/-- Outcome of `_parse_views`: a returned value (`None` or an int), or an
uncaught `OverflowError` escaping to the caller. -/
inductive PyRes where
  | val (v : Option Int)
  | ovfl
deriving DecidableEq, Repr

/-- `int(f)` truncated toward zero, for a finite double `sgn * m * 2 ^ e`. -/
def pyTruncInt (sgn : Bool) (m : Nat) (e : Int) : Int :=
  let n : Nat := if 0 ≤ e then m * 2 ^ e.toNat else m / 2 ^ (-e).toNat
  if sgn then -(n : Int) else (n : Int)

/-- `try: return int(f) except ValueError: return None` applied to the result
of a `float(...)` call: a parse failure or NaN yields `None` (the
`ValueError` is caught), an infinity raises the uncaught `OverflowError`. -/
def pyToIntRes (f : Option PyFloat) : PyRes :=
  match f with
  | none => .val none
  | some (.finite sgn m e) => .val (some (pyTruncInt sgn m e))
  | some .pinf => .ovfl
  | some .ninf => .ovfl
  | some .nan => .val none

/-- `_parse_views` from `src/yt_tool/database.py`: empty or placeholder
strings give `None`; otherwise lowercase, remove "views" and commas, strip,
then dispatch on a trailing k/m/b multiplier, parsing the remainder as a
Python float truncated to an int; `ValueError` is caught (yielding `None`),
an infinite value raises `OverflowError` (`PyRes.ovfl`). -/
def _parse_views (views_text : String) : PyRes :=
  if views_text.data = [] ∨ trimL views_text.data = "N/A".data ∨
     trimL views_text.data = "No views".data ∨ trimL views_text.data = [] then
    .val none
  else
    if (trimL (dropComma (stripViews (lowerL views_text.data)))).getLast? = some 'k' then
      pyToIntRes (Option.map (fun f => pyMulNat f 1000)
        (tokFloatL (trimL (dropComma (stripViews (lowerL views_text.data)))).dropLast))
    else if (trimL (dropComma (stripViews (lowerL views_text.data)))).getLast? = some 'm' then
      pyToIntRes (Option.map (fun f => pyMulNat f 1000000)
        (tokFloatL (trimL (dropComma (stripViews (lowerL views_text.data)))).dropLast))
    else if (trimL (dropComma (stripViews (lowerL views_text.data)))).getLast? = some 'b' then
      pyToIntRes (Option.map (fun f => pyMulNat f 1000000000)
        (tokFloatL (trimL (dropComma (stripViews (lowerL views_text.data)))).dropLast))
    else
      pyToIntRes (tokFloatL (trimL (dropComma (stripViews (lowerL views_text.data)))))

/-- Reference definition following the specification's wording of the Metric
Parser: the placeholder strings `""`, `"N/A"`, `"No views"` map to unknown;
otherwise the word "views" (case-insensitive) and commas are stripped and
whitespace trimmed; a trimmed string ending in k/m/b (case-insensitive)
parses its numeric prefix as a float times 1e3/1e6/1e9 truncated to an
integer, otherwise the trimmed string parses directly as a float truncated
to an integer; non-numeric residue yields unknown, and (amendment forced by
the code) a residue whose float value is infinite raises `OverflowError`.
Float parsing is case-insensitive, modelled by lowercasing the numeric text
before `tokFloatL`. -/
def parse_metric_spec (text : String) : PyRes :=
  if text = "" ∨ text = "N/A" ∨ text = "No views" then .val none
  else
    if ((trimL (dropComma (stripViewsCaseless text.data))).getLast?).map lowerChar
        = some 'k' then
      pyToIntRes (Option.map (fun f => pyMulNat f 1000)
        (tokFloatL (lowerL (trimL (dropComma (stripViewsCaseless text.data))).dropLast)))
    else if ((trimL (dropComma (stripViewsCaseless text.data))).getLast?).map lowerChar
        = some 'm' then
      pyToIntRes (Option.map (fun f => pyMulNat f 1000000)
        (tokFloatL (lowerL (trimL (dropComma (stripViewsCaseless text.data))).dropLast)))
    else if ((trimL (dropComma (stripViewsCaseless text.data))).getLast?).map lowerChar
        = some 'b' then
      pyToIntRes (Option.map (fun f => pyMulNat f 1000000000)
        (tokFloatL (lowerL (trimL (dropComma (stripViewsCaseless text.data))).dropLast)))
    else
      pyToIntRes (tokFloatL (lowerL (trimL (dropComma (stripViewsCaseless text.data)))))

/-- One row of the `videos` table: a Video Observation.  `views` is the raw
display string (`views_raw` in the spec), `views_int` the parsed metric
(NULL when unparsable).  Rows are kept in insertion order. -/
structure VideoRow where
  video_id : String
  title : String
  channel : String
  duration : String
  views : String
  views_int : Option Int
  url : String
  query : String
  scraped_at : String
deriving DecidableEq, Repr

/-- One row of the `view_snapshots` table.  The program only ever inserts
snapshots with a non-NULL `views_int` (`save_results` guards on it), so the
model carries a plain `Int`. -/
structure Snapshot where
  video_id : String
  views_int : Int
  recorded_at : String
deriving DecidableEq, Repr

/-- The persistent store: the three tables, each a list of rows in insertion
(rowid) order. -/
structure DB where
  videos : List VideoRow
  snapshots : List Snapshot
  tracked : List String
deriving DecidableEq, Repr

/-- A raw scraped record (a Python dict): `none` models a missing key.
Present values are strings, as produced by the scraper. -/
structure RawRecord where
  video_id : Option String
  title : Option String
  channel : Option String
  duration : Option String
  views : Option String
  url : Option String
deriving DecidableEq, Repr

/-- All six keys accessed by `save_results` are present. -/
def RawRecord.complete (r : RawRecord) : Prop :=
  r.video_id.isSome = true ∧ r.title.isSome = true ∧ r.channel.isSome = true ∧
  r.duration.isSome = true ∧ r.views.isSome = true ∧ r.url.isSome = true

/-- Some key required by `save_results` is missing (triggers a `KeyError`
that the per-record handler catches). -/
def RawRecord.missingReq (r : RawRecord) : Prop :=
  r.video_id = none ∨ r.title = none ∨ r.channel = none ∨
  r.duration = none ∨ r.views = none ∨ r.url = none

/-- Does the `videos` table hold a row for this (video_id, query) pair? -/
def hasPair (db : DB) (query vid : String) : Prop :=
  ∃ v ∈ db.videos, v.video_id = vid ∧ v.query = query

instance (db : DB) (query vid : String) : Decidable (hasPair db query vid) := by
  unfold hasPair; infer_instance

/-- The `views_int` currently stored for a (video_id, query) pair (`none`
when the pair is absent or its stored metric is NULL) — the value the
pre-fetch `SELECT views_int FROM videos WHERE ...` returns to Python. -/
def storedViews (db : DB) (query vid : String) : Option Int :=
  match db.videos.find? (fun v => decide (v.video_id = vid) && decide (v.query = query)) with
  | none => none
  | some v => v.views_int

/-- The UPSERT of `save_results`: `INSERT ... ON CONFLICT(video_id, query)
DO UPDATE SET views, views_int, scraped_at` — on conflict only the raw views
string, the parsed metric and the scrape time are overwritten; title,
channel, duration and url keep their stored values. -/
def upsertVideo (db : DB) (vid title channel duration views : String)
    (views_int : Option Int) (url query now : String) : DB :=
  if db.videos.any (fun v => decide (v.video_id = vid) && decide (v.query = query)) then
    { db with videos := db.videos.map (fun v =>
        if v.video_id = vid ∧ v.query = query then
          { v with views := views, views_int := views_int, scraped_at := now }
        else v) }
  else
    { db with videos := db.videos ++
        [{ video_id := vid, title := title, channel := channel,
           duration := duration, views := views, views_int := views_int,
           url := url, query := query, scraped_at := now }] }

/-- The body of `save_results`' per-record loop.  `none` models the uncaught
`OverflowError` from the `_parse_views` call (which sits before the
`try`-block); `some (db2, k)` is the new state plus the `new_count`
increment.  A record with a missing key raises `KeyError` inside the `try`,
is logged and skipped: state unchanged, increment 0. -/
def saveStep (query now : String) (db : DB) (r : RawRecord) : Option (DB × Nat) :=
  match _parse_views (r.views.getD "") with
  | .ovfl => none
  | .val views_int =>
    match r.video_id with
    | none => some (db, 0)
    | some vid =>
      let old := db.videos.find? (fun v => decide (v.video_id = vid) && decide (v.query = query))
      let oldViews : Option Int := match old with | none => none | some v => v.views_int
      let is_new := old.isNone
      match r.title, r.channel, r.duration, r.views, r.url with
      | some title, some channel, some duration, some views, some url =>
        let db1 := upsertVideo db vid title channel duration views views_int url query now
        let snaps : List Snapshot :=
          match views_int with
          | some n =>
            if is_new ∨ ¬ some n = oldViews then
              [{ video_id := vid, views_int := n, recorded_at := now }]
            else []
          | none => []
        some ({ db1 with snapshots := db1.snapshots ++ snaps },
              if is_new then 1 else 0)
      | _, _, _, _, _ => some (db, 0)

/-- Sequential fold of `saveStep` over the batch, accumulating `new_count`. -/
def saveLoop (query now : String) : DB → Nat → List RawRecord → Option (DB × Nat)
  | db, n, [] => some (db, n)
  | db, n, r :: rest =>
    match saveStep query now db r with
    | none => none
    | some p => saveLoop query now p.1 (n + p.2) rest

/-- `save_results(results, query)`: processes the batch in order and returns
`new_count`.  `datetime.now()` is the `now` parameter.  When the uncaught
`OverflowError` propagates, the connection is closed without commit and the
staged changes roll back: the store is unchanged and no count is returned. -/
def save_results (results : List RawRecord) (query now : String) (db : DB) :
    DB × Option Nat :=
  match saveLoop query now db 0 results with
  | none => (db, none)
  | some p => (p.1, some p.2)

/-- `init_db()`: DDL only (`CREATE TABLE IF NOT EXISTS`, the additive
`views_int` migration, an index) — it touches no rows. -/
def init_db (db : DB) : DB := db

/-- `add_tracked_query`: the UNIQUE violation is caught and reported as
`False` with no change; otherwise the query is inserted and `True` returned. -/
def add_tracked_query (query : String) (db : DB) : DB × Bool :=
  if query ∈ db.tracked then (db, false)
  else ({ db with tracked := db.tracked ++ [query] }, true)

/-- `remove_tracked_query`: delete matching rows, report whether any row was
actually deleted. -/
def remove_tracked_query (query : String) (db : DB) : DB × Bool :=
  ({ db with tracked := db.tracked.filter (fun q => !(decide (q = query))) },
   decide (query ∈ db.tracked))

/-- `get_tracked_queries()`. -/
def get_tracked_queries (db : DB) : List String := db.tracked

/-- Lexicographic comparison of character lists by codepoint: the order of
SQLite TEXT under the BINARY collation (memcmp on UTF-8 agrees with
codepoint order). -/
def strLtL : List Char → List Char → Bool
  | [], [] => false
  | [], _ :: _ => true
  | _ :: _, [] => false
  | a :: as, b :: bs => if a < b then true else if b < a then false else strLtL as bs

/-- SQLite TEXT comparison of two strings. -/
def strLt (a b : String) : Bool := strLtL a.data b.data

/-- The snapshots of one video, in insertion order. -/
def snapsOf (db : DB) (vid : String) : List Snapshot :=
  db.snapshots.filter (fun s => decide (s.video_id = vid))

/-- `ROW_NUMBER() OVER (PARTITION BY video_id ORDER BY recorded_at DESC)`:
the video's snapshots ordered by `recorded_at` descending (SQLite TEXT
comparison; ties broken deterministically by the sort). -/
def rankedOf (db : DB) (vid : String) : List Snapshot :=
  List.insertionSort (fun a b => strLt a.recorded_at b.recorded_at = false)
    (snapsOf db vid)

/-- The two most recent snapshots (rows rn = 1 and rn = 2): `latest` then
`previous`; `none` when the video has fewer than two snapshots. -/
def latestTwo (db : DB) (vid : String) : Option (Snapshot × Snapshot) :=
  match rankedOf db vid with
  | a :: b :: _ => some (a, b)
  | _ => none

/-- Round `a / b` (`b ≠ 0`) to the nearest integer, halves away from zero —
SQLite's `ROUND` on the exact quotient. -/
def roundHalfZ (a b : Int) : Int :=
  let s : Int := if (0 ≤ a) = (0 ≤ b) then 1 else -1
  s * (((2 * a.natAbs + b.natAbs) / (2 * b.natAbs) : Nat) : Int)

/-- One row of the trending report.  The SQL result exposes the eight listed
columns; `video_id` is carried additionally so the specification can speak
about which video a row belongs to.  `growth_pct` is the exact value of
`ROUND(growth / prev * 100, 2)` in hundredths of a percent (`none` models
the NULL produced by `NULLIF(prev, 0)` when the previous value is 0). -/
structure TrendRow where
  video_id : String
  title : String
  channel : String
  query : String
  url : String
  latest_views : Int
  prev_views : Int
  growth : Int
  growth_pct : Option Int
deriving DecidableEq, Repr

/-- Build the joined output row from one matching `videos` row and the two
most recent snapshot values. -/
def mkTrendRow (v : VideoRow) (lv pv : Int) : TrendRow :=
  { video_id := v.video_id, title := v.title, channel := v.channel,
    query := v.query, url := v.url, latest_views := lv, prev_views := pv,
    growth := lv - pv,
    growth_pct := if pv = 0 then none else some (roundHalfZ (10000 * (lv - pv)) pv) }

/-- `ORDER BY growth DESC`: a row may precede another when its growth is at
least as large. -/
def trendGe (a b : TrendRow) : Prop := b.growth ≤ a.growth

instance : DecidableRel trendGe := fun a b => by unfold trendGe; infer_instance

/-- `get_trending(limit)`: per video with at least two snapshots, compare the
two most recent, join every matching `videos` row (the join is on `video_id`
alone, so a video observed under several queries yields several rows), keep
strictly positive growth, order by growth descending, truncate to `limit`. -/
def get_trending (db : DB) (limit : Nat) : List TrendRow :=
  let vids := (db.snapshots.map (fun s => s.video_id)).dedup
  let pre := (vids.map (fun vid =>
    match latestTwo db vid with
    | some p =>
      (db.videos.filter (fun v => decide (v.video_id = vid))).map
        (fun v => mkTrendRow v p.1.views_int p.2.views_int)
    | none => [])).flatten
  let filtered := pre.filter (fun r => decide (r.prev_views < r.latest_views))
  (List.insertionSort trendGe filtered).take limit

/-- SQLite `MAX` of two TEXT values (BINARY collation = codepoint order). -/
def strMax (a b : String) : String := if strLt a b then b else a

/-- SQLite aggregate `MAX(column)` over a group of TEXT values. -/
def maxStr : List String → String
  | [] => ""
  | c :: r => r.foldl strMax c

/-- SQLite `MAX` of two nullable INTEGER values: NULLs are ignored. -/
def optIntMax (a b : Option Int) : Option Int :=
  match a, b with
  | none, x => x
  | x, none => x
  | some x, some y => some (max x y)

/-- SQLite aggregate `MAX(column)` over a group of nullable INTEGER values:
NULL only when every value is NULL. -/
def maxOptInt (l : List (Option Int)) : Option Int := l.foldl optIntMax none

/-- A video's group under `GROUP BY video_id`: its observation rows. -/
def grpOf (db : DB) (vid : String) : List VideoRow :=
  db.videos.filter (fun v => decide (v.video_id = vid))

/-- The number of distinct `query` values under which a video was observed
(`COUNT(DISTINCT query)` for its group). -/
def distinctQueryCount (db : DB) (vid : String) : Nat :=
  (((grpOf db vid).map (fun v => v.query)).dedup).length

/-- One row of the duplicates report. -/
structure DupRow where
  video_id : String
  title : String
  channel : String
  views_int : Option Int
  views : String
  query_count : Nat
  queries : String
  url : String
deriving DecidableEq, Repr

/-- SQLite ordering of nullable INTEGER values: NULL below every integer. -/
def optLeI : Option Int → Option Int → Prop
  | none, _ => True
  | some _, none => False
  | some x, some y => x ≤ y

instance : ∀ a b : Option Int, Decidable (optLeI a b)
  | none, _ => isTrue trivial
  | some _, none => isFalse (fun h => h)
  | some x, some y => inferInstanceAs (Decidable (x ≤ y))

/-- `ORDER BY query_count DESC, views_int DESC` (NULL metric sorts last). -/
def dupGe (a b : DupRow) : Prop :=
  b.query_count < a.query_count ∨
  (b.query_count = a.query_count ∧ optLeI b.views_int a.views_int)

instance : DecidableRel dupGe := fun a b => by unfold dupGe; infer_instance

/-- One output row of `get_duplicates` for a grouped `video_id`: present
exactly when the group spans more than one distinct query; each display
column is the SQL `MAX` aggregate over the group, computed per column. -/
def dupRowFor (db : DB) (vid : String) : Option DupRow :=
  if 1 < distinctQueryCount db vid then
    some { video_id := vid,
           title := maxStr ((grpOf db vid).map (fun v => v.title)),
           channel := maxStr ((grpOf db vid).map (fun v => v.channel)),
           views_int := maxOptInt ((grpOf db vid).map (fun v => v.views_int)),
           views := maxStr ((grpOf db vid).map (fun v => v.views)),
           query_count := distinctQueryCount db vid,
           queries := String.intercalate ","
             (((grpOf db vid).map (fun v => v.query)).dedup),
           url := maxStr ((grpOf db vid).map (fun v => v.url)) }
  else none

/-- `get_duplicates()`: group the `videos` table by `video_id`, keep groups
spanning more than one distinct query, order by query_count descending then
views_int descending. -/
def get_duplicates (db : DB) : List DupRow :=
  List.insertionSort dupGe
    ((db.videos.map (fun v => v.video_id)).dedup.filterMap (dupRowFor db))

/-- Example store for the trending-report claims: one video observed under two
different queries, with two snapshots. -/
def exDb4 : DB :=
  { videos :=
      [{ video_id := "v1", title := "T", channel := "ch", duration := "d",
         views := "200", views_int := some 200, url := "u", query := "a",
         scraped_at := "t2" },
       { video_id := "v1", title := "T", channel := "ch", duration := "d",
         views := "200", views_int := some 200, url := "u", query := "b",
         scraped_at := "t2" }],
    snapshots :=
      [{ video_id := "v1", views_int := 100, recorded_at := "2024-01-01 00:00:00" },
       { video_id := "v1", views_int := 200, recorded_at := "2024-01-02 00:00:00" }],
    tracked := [] }

/-- Example store for the divide-by-zero claim: previous snapshot value 0,
latest 500. -/
def exDb8 : DB :=
  { videos :=
      [{ video_id := "v1", title := "T", channel := "ch", duration := "d",
         views := "500", views_int := some 500, url := "u", query := "a",
         scraped_at := "t2" }],
    snapshots :=
      [{ video_id := "v1", views_int := 0, recorded_at := "2024-01-01 00:00:00" },
       { video_id := "v1", views_int := 500, recorded_at := "2024-01-02 00:00:00" }],
    tracked := [] }

/-- Example store for the duplicates claims: v1 under two queries with
differing display fields, v2 under a single query. -/
def exDb5 : DB :=
  { videos :=
      [{ video_id := "v1", title := "B", channel := "chX", duration := "d",
         views := "2", views_int := some 2, url := "a", query := "q1",
         scraped_at := "t0" },
       { video_id := "v1", title := "A", channel := "chY", duration := "d",
         views := "1", views_int := some 1, url := "z", query := "q2",
         scraped_at := "t0" },
       { video_id := "v2", title := "C", channel := "chZ", duration := "d",
         views := "9", views_int := some 9, url := "w", query := "q1",
         scraped_at := "t0" }],
    snapshots := [], tracked := [] }

/-- Example store holding one observation row for ("v1", "q"). -/
def exDb3 : DB :=
  { videos :=
      [{ video_id := "v1", title := "Old", channel := "c0", duration := "d0",
         views := "4", views_int := some 4, url := "u0", query := "q",
         scraped_at := "t0" }],
    snapshots := [], tracked := [] }

/-- A complete scraped record for video v1 with title "New" and views "5". -/
def exRec : RawRecord :=
  { video_id := some "v1", title := some "New", channel := some "c",
    duration := some "d", views := some "5", url := some "u" }

/-- A record missing the required title key. -/
def exRecBad : RawRecord :=
  { video_id := some "v2", title := none, channel := some "c",
    duration := some "d", views := some "7", url := some "u" }

/-- An empty store. -/
def exDbEmpty : DB := { videos := [], snapshots := [], tracked := [] }

/-- The trending row produced by `exDb8` (growth 500, percentage NULL). -/
def exRow8 : TrendRow :=
  { video_id := "v1", title := "T", channel := "ch", query := "a", url := "u",
    latest_views := 500, prev_views := 0, growth := 500, growth_pct := none }

/-- One of the two trending rows produced by `exDb4`. -/
def exRow4 : TrendRow :=
  { video_id := "v1", title := "T", channel := "ch", query := "a", url := "u",
    latest_views := 200, prev_views := 100, growth := 100,
    growth_pct := some 10000 }

/-- The duplicates-report row produced by `exDb5` for video v1: its display
fields mix the two observation rows (title from one, url from the other). -/
def exDup5 : DupRow :=
  { video_id := "v1", title := "B", channel := "chY", views_int := some 2,
    views := "2", query_count := 2, queries := "q1,q2", url := "z" }

/-- Lowercasing never produces an uppercase letter, so it is idempotent on
the characters it moves; more to the point here: it maps nothing onto a
comma. -/
theorem lowerChar_comma (c : Char) : lowerChar c = ',' ↔ c = ',' := by
  by_cases h1 : c = 'A'
  case pos => subst h1; decide
  by_cases h2 : c = 'B'
  case pos => subst h2; decide
  by_cases h3 : c = 'C'
  case pos => subst h3; decide
  by_cases h4 : c = 'D'
  case pos => subst h4; decide
  by_cases h5 : c = 'E'
  case pos => subst h5; decide
  by_cases h6 : c = 'F'
  case pos => subst h6; decide
  by_cases h7 : c = 'G'
  case pos => subst h7; decide
  by_cases h8 : c = 'H'
  case pos => subst h8; decide
  by_cases h9 : c = 'I'
  case pos => subst h9; decide
  by_cases h10 : c = 'J'
  case pos => subst h10; decide
  by_cases h11 : c = 'K'
  case pos => subst h11; decide
  by_cases h12 : c = 'L'
  case pos => subst h12; decide
  by_cases h13 : c = 'M'
  case pos => subst h13; decide
  by_cases h14 : c = 'N'
  case pos => subst h14; decide
  by_cases h15 : c = 'O'
  case pos => subst h15; decide
  by_cases h16 : c = 'P'
  case pos => subst h16; decide
  by_cases h17 : c = 'Q'
  case pos => subst h17; decide
  by_cases h18 : c = 'R'
  case pos => subst h18; decide
  by_cases h19 : c = 'S'
  case pos => subst h19; decide
  by_cases h20 : c = 'T'
  case pos => subst h20; decide
  by_cases h21 : c = 'U'
  case pos => subst h21; decide
  by_cases h22 : c = 'V'
  case pos => subst h22; decide
  by_cases h23 : c = 'W'
  case pos => subst h23; decide
  by_cases h24 : c = 'X'
  case pos => subst h24; decide
  by_cases h25 : c = 'Y'
  case pos => subst h25; decide
  by_cases h26 : c = 'Z'
  case pos => subst h26; decide
  unfold lowerChar
  simp only [if_neg h1, if_neg h2, if_neg h3, if_neg h4, if_neg h5, if_neg h6, if_neg h7, if_neg h8, if_neg h9, if_neg h10, if_neg h11, if_neg h12, if_neg h13, if_neg h14, if_neg h15, if_neg h16, if_neg h17, if_neg h18, if_neg h19, if_neg h20, if_neg h21, if_neg h22, if_neg h23, if_neg h24, if_neg h25, if_neg h26]

/-- Lowercasing preserves whitespace-ness. -/
theorem lowerChar_space (c : Char) : isSpaceChar (lowerChar c) = isSpaceChar c := by
  by_cases h1 : c = 'A'
  case pos => subst h1; decide
  by_cases h2 : c = 'B'
  case pos => subst h2; decide
  by_cases h3 : c = 'C'
  case pos => subst h3; decide
  by_cases h4 : c = 'D'
  case pos => subst h4; decide
  by_cases h5 : c = 'E'
  case pos => subst h5; decide
  by_cases h6 : c = 'F'
  case pos => subst h6; decide
  by_cases h7 : c = 'G'
  case pos => subst h7; decide
  by_cases h8 : c = 'H'
  case pos => subst h8; decide
  by_cases h9 : c = 'I'
  case pos => subst h9; decide
  by_cases h10 : c = 'J'
  case pos => subst h10; decide
  by_cases h11 : c = 'K'
  case pos => subst h11; decide
  by_cases h12 : c = 'L'
  case pos => subst h12; decide
  by_cases h13 : c = 'M'
  case pos => subst h13; decide
  by_cases h14 : c = 'N'
  case pos => subst h14; decide
  by_cases h15 : c = 'O'
  case pos => subst h15; decide
  by_cases h16 : c = 'P'
  case pos => subst h16; decide
  by_cases h17 : c = 'Q'
  case pos => subst h17; decide
  by_cases h18 : c = 'R'
  case pos => subst h18; decide
  by_cases h19 : c = 'S'
  case pos => subst h19; decide
  by_cases h20 : c = 'T'
  case pos => subst h20; decide
  by_cases h21 : c = 'U'
  case pos => subst h21; decide
  by_cases h22 : c = 'V'
  case pos => subst h22; decide
  by_cases h23 : c = 'W'
  case pos => subst h23; decide
  by_cases h24 : c = 'X'
  case pos => subst h24; decide
  by_cases h25 : c = 'Y'
  case pos => subst h25; decide
  by_cases h26 : c = 'Z'
  case pos => subst h26; decide
  unfold lowerChar
  simp only [if_neg h1, if_neg h2, if_neg h3, if_neg h4, if_neg h5, if_neg h6, if_neg h7, if_neg h8, if_neg h9, if_neg h10, if_neg h11, if_neg h12, if_neg h13, if_neg h14, if_neg h15, if_neg h16, if_neg h17, if_neg h18, if_neg h19, if_neg h20, if_neg h21, if_neg h22, if_neg h23, if_neg h24, if_neg h25, if_neg h26]

/-- A whitespace character does not lowercase to the letter v. -/
theorem lowerChar_ws_ne_v (c : Char) (h : isSpaceChar c = true) :
    ¬ lowerChar c = 'v' := by
  intro hv
  have h2 := lowerChar_space c
  rw [hv, h] at h2
  exact absurd h2 (by decide)

/-- The fuel of `svcGo` is irrelevant once it covers the list length. -/
theorem svcGo_fuel : ∀ f g l, List.length l ≤ f → List.length l ≤ g →
    svcGo f l = svcGo g l := by
  intro f
  induction f with
  | zero =>
    intro g l hf _
    have hl : l = [] := List.eq_nil_of_length_eq_zero (Nat.le_zero.mp hf)
    subst hl
    cases g <;> rfl
  | succ f ih =>
    intro g l hf hg
    cases l with
    | nil => cases g <;> rfl
    | cons c cs =>
      cases g with
      | zero => simp at hg
      | succ g =>
        simp only [svcGo]
        split
        · exact ih g (List.drop 4 cs) (by simp at hf ⊢; omega) (by simp at hg ⊢; omega)
        · rw [ih g cs (by simp at hf; omega) (by simp at hg; omega)]

/-- The fuel of `svGo` is irrelevant once it covers the list length. -/
theorem svGo_fuel : ∀ f g l, List.length l ≤ f → List.length l ≤ g →
    svGo f l = svGo g l := by
  intro f
  induction f with
  | zero =>
    intro g l hf _
    have hl : l = [] := List.eq_nil_of_length_eq_zero (Nat.le_zero.mp hf)
    subst hl
    cases g <;> rfl
  | succ f ih =>
    intro g l hf hg
    cases l with
    | nil => cases g <;> rfl
    | cons c cs =>
      cases g with
      | zero => simp at hg
      | succ g =>
        simp only [svGo]
        split
        · exact ih g (List.drop 4 cs) (by simp at hf ⊢; omega) (by simp at hg ⊢; omega)
        · rw [ih g cs (by simp at hf; omega) (by simp at hg; omega)]

/-- Scanning a lowercased list for literal "views" is scanning the original
caselessly. -/
theorem svGo_lower : ∀ f l, svGo f (lowerL l) = lowerL (svcGo f l) := by
  intro f
  induction f with
  | zero => intro l; rfl
  | succ f ih =>
    intro l
    cases l with
    | nil => rfl
    | cons c cs =>
      show svGo (f + 1) (lowerChar c :: lowerL cs) = lowerL (svcGo (f + 1) (c :: cs))
      simp only [svGo, svcGo]
      have hc : List.take 5 (lowerChar c :: lowerL cs) = lowerL (List.take 5 (c :: cs)) := by
        show List.take 5 (lowerL (c :: cs)) = lowerL (List.take 5 (c :: cs))
        simp [lowerL]
      rw [hc]
      split
      · rw [show List.drop 4 (lowerL cs) = lowerL (List.drop 4 cs) by simp [lowerL]]
        exact ih (List.drop 4 cs)
      · show lowerChar c :: svGo f (lowerL cs) = lowerL (c :: svcGo f cs)
        rw [ih cs]
        rfl

/-- `replace("views", "")` after lowercasing equals the caseless removal
followed by lowercasing. -/
theorem stripViews_lower (l : List Char) :
    stripViews (lowerL l) = lowerL (stripViewsCaseless l) := by
  unfold stripViews stripViewsCaseless
  rw [show (lowerL l).length = l.length by simp [lowerL]]
  exact svGo_lower l.length l

/-- Comma removal commutes with lowercasing. -/
theorem dropComma_lower (l : List Char) :
    dropComma (lowerL l) = lowerL (dropComma l) := by
  unfold dropComma lowerL
  rw [List.filter_map]
  have hp : (fun c => !(decide (c = ','))) ∘ lowerChar = fun c => !(decide (c = ',')) := by
    funext c
    simp only [Function.comp]
    rw [decide_eq_decide.mpr (lowerChar_comma c)]
  rw [hp]

/-- Stripping whitespace commutes with lowercasing. -/
theorem trimL_lower (l : List Char) : trimL (lowerL l) = lowerL (trimL l) := by
  unfold trimL trimLeftL
  have hdw : ∀ x : List Char,
      List.dropWhile isSpaceChar (lowerL x) = lowerL (List.dropWhile isSpaceChar x) := by
    intro x
    unfold lowerL
    rw [List.dropWhile_map]
    have hp : isSpaceChar ∘ lowerChar = isSpaceChar := by
      funext c
      exact lowerChar_space c
    rw [hp]
  rw [hdw, show (lowerL (List.dropWhile isSpaceChar l)).reverse
        = lowerL (List.dropWhile isSpaceChar l).reverse by simp [lowerL],
      hdw, show (lowerL ((List.dropWhile isSpaceChar
        (List.dropWhile isSpaceChar l).reverse))).reverse
        = lowerL ((List.dropWhile isSpaceChar
            (List.dropWhile isSpaceChar l).reverse)).reverse by simp [lowerL]]

/-- The whole preprocessing pipeline of `_parse_views` (on lowercased input)
equals the spec-side caseless pipeline followed by lowercasing. -/
theorem pipeline_lower (l : List Char) :
    trimL (dropComma (stripViews (lowerL l)))
      = lowerL (trimL (dropComma (stripViewsCaseless l))) := by
  rw [stripViews_lower, dropComma_lower, trimL_lower]

/-- A caseless scan step at a character that does not lowercase to v keeps
that character. -/
theorem svc_cons_nov (c : Char) (cs : List Char) (h : ¬ lowerChar c = 'v') :
    stripViewsCaseless (c :: cs) = c :: stripViewsCaseless cs := by
  unfold stripViewsCaseless
  simp only [List.length_cons, svcGo]
  have hcond : ¬ lowerL (List.take 5 (c :: cs)) = viewsL := by
    intro hx
    rw [List.take_succ_cons] at hx
    have : lowerChar c = 'v' := by
      have := congrArg List.head? hx
      simpa [lowerL, viewsL] using this
    exact h this
  rw [if_neg hcond]

/-- Characters that never lowercase to v pass through the caseless scan. -/
theorem svc_append_nov (a l : List Char) (h : ∀ c ∈ a, ¬ lowerChar c = 'v') :
    stripViewsCaseless (a ++ l) = a ++ stripViewsCaseless l := by
  induction a with
  | nil => simp
  | cons c a2 ih =>
    rw [List.cons_append, svc_cons_nov c (a2 ++ l) (h c (List.mem_cons_self c a2)),
        ih (fun x hx => h x (List.mem_cons_of_mem c hx))]
    rfl

/-- A list with no character lowercasing to v is unchanged by the scan. -/
theorem svc_id (l : List Char) (h : ∀ c ∈ l, ¬ lowerChar c = 'v') :
    stripViewsCaseless l = l := by
  have h2 := svc_append_nov l [] h
  have h3 : stripViewsCaseless ([] : List Char) = [] := rfl
  rw [h3] at h2
  simpa using h2

/-- The caseless scan consumes a leading (lowercase) "views". -/
theorem svc_views_consume (l : List Char) :
    stripViewsCaseless (viewsL ++ l) = stripViewsCaseless l := by
  show stripViewsCaseless ('v' :: 'i' :: 'e' :: 'w' :: 's' :: l) = stripViewsCaseless l
  unfold stripViewsCaseless
  simp only [List.length_cons, svcGo]
  have hcond : lowerL (List.take 5 ('v' :: 'i' :: 'e' :: 'w' :: 's' :: l)) = viewsL := by
    simp [lowerL, viewsL]
    decide
  rw [if_pos hcond]
  have hdrop : List.drop 4 ('i' :: 'e' :: 'w' :: 's' :: l) = l := by simp
  rw [hdrop]
  exact svcGo_fuel (l.length + 4) l.length l (by omega) (le_refl _)

/-- Dropping leading whitespace skips over an all-whitespace prefix. -/
theorem dropWhile_ws_skip (a l : List Char) (h : ∀ c ∈ a, isSpaceChar c = true) :
    List.dropWhile isSpaceChar (a ++ l) = List.dropWhile isSpaceChar l := by
  induction a with
  | nil => simp
  | cons c a2 ih =>
    rw [List.cons_append, List.dropWhile_cons, if_pos (h c (List.mem_cons_self c a2))]
    exact ih (fun x hx => h x (List.mem_cons_of_mem c hx))

/-- Every list splits as whitespace, its stripped core, whitespace. -/
theorem trimL_decomp (l : List Char) :
    ∃ a b, (∀ c ∈ a, isSpaceChar c = true) ∧ (∀ c ∈ b, isSpaceChar c = true) ∧
      l = a ++ trimL l ++ b := by
  refine ⟨l.takeWhile isSpaceChar,
          ((l.dropWhile isSpaceChar).reverse.takeWhile isSpaceChar).reverse,
          ?_, ?_, ?_⟩
  · intro c hc
    exact List.mem_takeWhile_imp hc
  · intro c hc
    rw [List.mem_reverse] at hc
    exact List.mem_takeWhile_imp hc
  · have h1 : l.takeWhile isSpaceChar ++ l.dropWhile isSpaceChar = l := by simp
    have h2 : (l.dropWhile isSpaceChar).reverse.takeWhile isSpaceChar ++
        (l.dropWhile isSpaceChar).reverse.dropWhile isSpaceChar =
        (l.dropWhile isSpaceChar).reverse := by simp
    conv_lhs => rw [← h1]
    rw [List.append_assoc]
    congr 1
    unfold trimL trimLeftL
    have h3 := congrArg List.reverse h2
    rw [List.reverse_append, List.reverse_reverse] at h3
    exact h3.symm

/-- Stripping whitespace from ws ++ core ++ ws yields the core when the core
starts and ends with non-whitespace. -/
theorem trim_sandwich (a m b : List Char) (ha : ∀ c ∈ a, isSpaceChar c = true)
    (hb : ∀ c ∈ b, isSpaceChar c = true) (hm : m ≠ [])
    (hh : ∀ x, m.head? = some x → isSpaceChar x = false)
    (hl : ∀ x, m.getLast? = some x → isSpaceChar x = false) :
    trimL (a ++ m ++ b) = m := by
  unfold trimL trimLeftL
  rw [List.append_assoc, dropWhile_ws_skip a (m ++ b) ha]
  have hstep : List.dropWhile isSpaceChar (m ++ b) = m ++ b := by
    cases m with
    | nil => exact absurd rfl hm
    | cons c m2 =>
      rw [List.cons_append, List.dropWhile_cons, hh c rfl]
      simp
  rw [hstep, List.reverse_append,
      dropWhile_ws_skip b.reverse m.reverse (fun c hc => hb c (List.mem_reverse.mp hc))]
  have hstep2 : List.dropWhile isSpaceChar m.reverse = m.reverse := by
    cases hr : m.reverse with
    | nil => simp
    | cons c r2 =>
      rw [List.dropWhile_cons]
      have hc : m.getLast? = some c := by
        rw [← List.head?_reverse, hr]
        rfl
      rw [hl c hc]
      simp
  rw [hstep2, List.reverse_reverse]

/-- On text containing no v (in either case) and no comma, the caseless
pipeline is just stripping. -/
theorem pipe_id (l : List Char) (hv : ∀ c ∈ l, ¬ lowerChar c = 'v')
    (hcm : ∀ c ∈ l, ¬ c = ',') :
    trimL (dropComma (stripViewsCaseless l)) = trimL l := by
  rw [svc_id l hv]
  unfold dropComma
  rw [List.filter_eq_self.mpr (fun c hc => by simp [hcm c hc])]

/-- When the input strips to the placeholder "N/A", the spec pipeline yields
exactly "N/A". -/
theorem spec_u_na (l : List Char) (h : trimL l = "N/A".data) :
    trimL (dropComma (stripViewsCaseless l)) = "N/A".data := by
  obtain ⟨a, b, ha, hb, hd⟩ := trimL_decomp l
  rw [h] at hd
  have hv : ∀ c ∈ l, ¬ lowerChar c = 'v' := by
    intro c hc
    rw [hd] at hc
    simp only [List.mem_append] at hc
    rcases hc with (hc | hc) | hc
    · exact lowerChar_ws_ne_v c (ha c hc)
    · have hcc : c = 'N' ∨ c = '/' ∨ c = 'A' := by simpa using hc
      rcases hcc with rfl | rfl | rfl <;> decide
    · exact lowerChar_ws_ne_v c (hb c hc)
  have hcm : ∀ c ∈ l, ¬ c = ',' := by
    intro c hc heq
    subst heq
    rw [hd] at hc
    simp only [List.mem_append] at hc
    rcases hc with (hc | hc) | hc
    · exact absurd (ha _ hc) (by decide)
    · exact absurd hc (by decide)
    · exact absurd (hb _ hc) (by decide)
  rw [pipe_id l hv hcm, h]

/-- When the input strips to nothing, the spec pipeline yields nothing. -/
theorem spec_u_empty (l : List Char) (h : trimL l = []) :
    trimL (dropComma (stripViewsCaseless l)) = [] := by
  obtain ⟨a, b, ha, hb, hd⟩ := trimL_decomp l
  rw [h] at hd
  have hv : ∀ c ∈ l, ¬ lowerChar c = 'v' := by
    intro c hc
    rw [hd] at hc
    simp only [List.mem_append, List.append_nil] at hc
    rcases hc with hc | hc
    · exact lowerChar_ws_ne_v c (ha c hc)
    · exact lowerChar_ws_ne_v c (hb c hc)
  have hcm : ∀ c ∈ l, ¬ c = ',' := by
    intro c hc heq
    subst heq
    rw [hd] at hc
    simp only [List.mem_append, List.append_nil] at hc
    rcases hc with hc | hc
    · exact absurd (ha _ hc) (by decide)
    · exact absurd (hb _ hc) (by decide)
  rw [pipe_id l hv hcm, h]

/-- When the input strips to the placeholder "No views", the spec pipeline
removes the word "views" and yields "No". -/
theorem spec_u_noviews (l : List Char) (h : trimL l = "No views".data) :
    trimL (dropComma (stripViewsCaseless l)) = ['N', 'o'] := by
  obtain ⟨a, b, ha, hb, hd⟩ := trimL_decomp l
  rw [h] at hd
  have hsplit : ("No views".data : List Char) = ['N', 'o', ' '] ++ viewsL := by decide
  rw [hsplit] at hd
  have hnov : ∀ c ∈ a ++ ['N', 'o', ' '], ¬ lowerChar c = 'v' := by
    intro c hc
    rcases List.mem_append.mp hc with hc | hc
    · exact lowerChar_ws_ne_v c (ha c hc)
    · have hcc : c = 'N' ∨ c = 'o' ∨ c = ' ' := by simpa using hc
      rcases hcc with rfl | rfl | rfl <;> decide
  have hsv : stripViewsCaseless l = (a ++ ['N', 'o', ' ']) ++ b := by
    rw [hd]
    have hre : a ++ (['N', 'o', ' '] ++ viewsL) ++ b
        = (a ++ ['N', 'o', ' ']) ++ (viewsL ++ b) := by simp
    rw [hre, svc_append_nov (a ++ ['N', 'o', ' ']) (viewsL ++ b) hnov,
        svc_views_consume, svc_id b (fun c hc => lowerChar_ws_ne_v c (hb c hc))]
  rw [hsv]
  have hnc : ∀ c ∈ (a ++ ['N', 'o', ' ']) ++ b, ¬ c = ',' := by
    intro c hc heq
    subst heq
    rcases List.mem_append.mp hc with hc | hc
    · rcases List.mem_append.mp hc with hc | hc
      · exact absurd (ha _ hc) (by decide)
      · exact absurd hc (by decide)
    · exact absurd (hb _ hc) (by decide)
  have hfil : dropComma ((a ++ ['N', 'o', ' ']) ++ b) = (a ++ ['N', 'o', ' ']) ++ b := by
    unfold dropComma
    exact List.filter_eq_self.mpr (fun c hc => by simp [hnc c hc])
  rw [hfil]
  have hre2 : (a ++ ['N', 'o', ' ']) ++ b = a ++ ['N', 'o'] ++ (' ' :: b) := by simp
  rw [hre2]
  have hb2 : ∀ c ∈ (' ' :: b), isSpaceChar c = true := by
    intro c hc
    rcases List.mem_cons.mp hc with rfl | hc
    · decide
    · exact hb c hc
  have hhd : ∀ x, (['N', 'o'] : List Char).head? = some x → isSpaceChar x = false := by
    intro x hx
    have hxx : x = 'N' := by simpa using hx.symm
    subst hxx
    decide
  have hls : ∀ x, (['N', 'o'] : List Char).getLast? = some x → isSpaceChar x = false := by
    intro x hx
    have hxx : x = 'o' := by simpa using hx.symm
    subst hxx
    decide
  exact trim_sandwich a ['N', 'o'] (' ' :: b) ha hb2 (by decide) hhd hls

/-- The code's parser agrees with the spec-worded parser on every string. -/
theorem parse_views_eq_spec (s : String) : _parse_views s = parse_metric_spec s := by
  by_cases hc : s.data = [] ∨ trimL s.data = "N/A".data ∨
      trimL s.data = "No views".data ∨ trimL s.data = []
  · have hcode : _parse_views s = .val none := by
      unfold _parse_views
      rw [if_pos hc]
    rw [hcode]
    by_cases hs : s = "" ∨ s = "N/A" ∨ s = "No views"
    · unfold parse_metric_spec
      rw [if_pos hs]
    · unfold parse_metric_spec
      rw [if_neg hs]
      rcases hc with h0 | hna | hnv | hemp
      · have hse : s = "" := String.ext (by simpa using h0)
        exact absurd (Or.inl hse) hs
      · rw [spec_u_na s.data hna]
        decide
      · rw [spec_u_noviews s.data hnv]
        decide
      · rw [spec_u_empty s.data hemp]
        decide
  · have hs : ¬ (s = "" ∨ s = "N/A" ∨ s = "No views") := by
      intro hx
      apply hc
      rcases hx with rfl | rfl | rfl
      · exact Or.inl rfl
      · exact Or.inr (Or.inl (by decide))
      · exact Or.inr (Or.inr (Or.inl (by decide)))
    unfold _parse_views parse_metric_spec
    rw [if_neg hc, if_neg hs, pipeline_lower s.data]
    simp only [lowerL, List.getLast?_map, List.map_dropLast]

/-- The pre-fetch finds a row exactly when the pair is present. -/
theorem hasPair_iff_isSome (db : DB) (query vid : String) :
    hasPair db query vid ↔
      ((db.videos.find? (fun v => decide (v.video_id = vid) && decide (v.query = query))).isSome
        = true) := by
  rw [List.find?_isSome]
  unfold hasPair
  simp

/-- The UPSERT conflict test agrees with pair presence. -/
theorem hasPair_iff_any (db : DB) (query vid : String) :
    hasPair db query vid ↔
      (db.videos.any (fun v => decide (v.video_id = vid) && decide (v.query = query)) = true) := by
  rw [List.any_eq_true]
  unfold hasPair
  simp

/-- The pre-fetch comes back empty exactly when the pair is absent. -/
theorem not_hasPair_iff_isNone (db : DB) (query vid : String) :
    ¬ hasPair db query vid ↔
      ((db.videos.find? (fun v => decide (v.video_id = vid) && decide (v.query = query))).isNone
        = true) := by
  rw [Option.isNone_iff_eq_none, List.find?_eq_none]
  unfold hasPair
  simp

/-- The UPSERT never touches the snapshots table. -/
theorem upsertVideo_snapshots (db : DB) (vid ti ch du vw : String) (pv : Option Int)
    (ur query now : String) :
    (upsertVideo db vid ti ch du vw pv ur query now).snapshots = db.snapshots := by
  unfold upsertVideo
  split <;> rfl

/-- The UPSERT never touches the tracked-queries table. -/
theorem upsertVideo_tracked (db : DB) (vid ti ch du vw : String) (pv : Option Int)
    (ur query now : String) :
    (upsertVideo db vid ti ch du vw pv ur query now).tracked = db.tracked := by
  unfold upsertVideo
  split <;> rfl

/-- On a present pair the UPSERT maps the conflict update over the rows. -/
theorem upsertVideo_videos_update (db : DB) (vid ti ch du vw : String) (pv : Option Int)
    (ur query now : String) (h : hasPair db query vid) :
    (upsertVideo db vid ti ch du vw pv ur query now).videos =
      db.videos.map (fun v =>
        if v.video_id = vid ∧ v.query = query then
          { v with views := vw, views_int := pv, scraped_at := now }
        else v) := by
  unfold upsertVideo
  rw [if_pos ((hasPair_iff_any db query vid).mp h)]

/-- On an absent pair the UPSERT appends a fresh full row. -/
theorem upsertVideo_videos_insert (db : DB) (vid ti ch du vw : String) (pv : Option Int)
    (ur query now : String) (h : ¬ hasPair db query vid) :
    (upsertVideo db vid ti ch du vw pv ur query now).videos =
      db.videos ++
        [{ video_id := vid, title := ti, channel := ch, duration := du, views := vw,
           views_int := pv, url := ur, query := query, scraped_at := now }] := by
  unfold upsertVideo
  rw [if_neg (fun hx => h ((hasPair_iff_any db query vid).mpr hx))]

/-- Running `save_results`' loop body on a record with all keys present:
the UPSERT fires, the snapshot-recording policy decides the append, and the
new-pair counter reflects the pre-fetch. -/
theorem saveStep_run (query now : String) (db : DB) (vid ti ch du vw ur : String)
    (pv : Option Int) (hpv : _parse_views vw = PyRes.val pv) :
    saveStep query now db
        { video_id := some vid, title := some ti, channel := some ch,
          duration := some du, views := some vw, url := some ur } =
      some ({ upsertVideo db vid ti ch du vw pv ur query now with
              snapshots := (upsertVideo db vid ti ch du vw pv ur query now).snapshots ++
                (match pv with
                 | some n =>
                   if (db.videos.find? (fun v => decide (v.video_id = vid) &&
                         decide (v.query = query))).isNone
                       ∨ ¬ some n = storedViews db query vid then
                     [{ video_id := vid, views_int := n, recorded_at := now }]
                   else []
                 | none => []) },
            if (db.videos.find? (fun v => decide (v.video_id = vid) &&
                  decide (v.query = query))).isNone then 1 else 0) := by
  unfold saveStep storedViews
  have hg : (Option.getD (some vw) "") = vw := rfl
  simp only [hg, hpv]
  cases pv <;> rfl

/-- When the views text parses to an infinity, the loop body raises the
uncaught `OverflowError`. -/
theorem saveStep_ovfl (query now : String) (db : DB) (r : RawRecord)
    (hx : _parse_views (r.views.getD "") = PyRes.ovfl) :
    saveStep query now db r = none := by
  simp [saveStep, hx]

/-- A record with a missing required key is skipped: the `KeyError` is caught
inside the loop, the store is untouched and nothing is counted (provided its
views text does not raise the uncaught `OverflowError`, which happens before
the `try`). -/
theorem saveStep_skip (query now : String) (db : DB) (r : RawRecord)
    (hm : r.missingReq) (ho : ¬ _parse_views (r.views.getD "") = PyRes.ovfl) :
    saveStep query now db r = some (db, 0) := by
  obtain ⟨v1, v2, v3, v4, v5, v6⟩ := r
  simp only [RawRecord.missingReq] at hm
  unfold saveStep
  split
  · rename_i heq
    exact absurd heq ho
  · rename_i v heq
    rcases v1 with _ | vid
    · rfl
    · rcases hm with h | h | h | h | h | h
      · exact absurd h (by simp)
      · subst h
        rfl
      · subst h
        rcases v2 with _ | ti <;> rfl
      · subst h
        rcases v2 with _ | ti <;> rcases v3 with _ | ch <;> rfl
      · subst h
        rcases v2 with _ | ti <;> rcases v3 with _ | ch <;> rcases v4 with _ | du <;> rfl
      · subst h
        rcases v2 with _ | ti <;> rcases v3 with _ | ch <;> rcases v4 with _ | du <;>
          rcases v5 with _ | vw <;> rfl

/-- The loop body only fails on the uncaught `OverflowError`. -/
theorem saveStep_isSome (query now : String) (db : DB) (r : RawRecord)
    (ho : ¬ _parse_views (r.views.getD "") = PyRes.ovfl) :
    (saveStep query now db r).isSome = true := by
  by_cases hm : r.missingReq
  · rw [saveStep_skip query now db r hm ho]
    rfl
  · obtain ⟨v1, v2, v3, v4, v5, v6⟩ := r
    simp only [RawRecord.missingReq] at hm
    push_neg at hm
    obtain ⟨h1, h2, h3, h4, h5, h6⟩ := hm
    rcases v1 with _ | vid
    · exact absurd rfl h1
    rcases v2 with _ | ti
    · exact absurd rfl h2
    rcases v3 with _ | ch
    · exact absurd rfl h3
    rcases v4 with _ | du
    · exact absurd rfl h4
    rcases v5 with _ | vw
    · exact absurd rfl h5
    rcases v6 with _ | ur
    · exact absurd rfl h6
    cases hpv : _parse_views vw with
    | ovfl => exact absurd hpv ho
    | val v =>
      rw [saveStep_run query now db vid ti ch du vw ur v hpv]
      rfl

/-- One loop step grows the videos table by exactly the counted amount, only
appends to the snapshots table, and leaves the tracked queries alone. -/
theorem saveStep_effects (query now : String) (db : DB) (r : RawRecord)
    (p : DB × Nat) (h : saveStep query now db r = some p) :
    p.1.videos.length = db.videos.length + p.2 ∧
    (∃ t, p.1.snapshots = db.snapshots ++ t) ∧
    p.1.tracked = db.tracked := by
  have ho : ¬ _parse_views (r.views.getD "") = PyRes.ovfl := by
    intro hx
    rw [saveStep_ovfl query now db r hx] at h
    exact Option.noConfusion h
  by_cases hm : r.missingReq
  · rw [saveStep_skip query now db r hm ho] at h
    obtain rfl := Option.some.inj h
    exact ⟨by simp, ⟨[], by simp⟩, rfl⟩
  · obtain ⟨v1, v2, v3, v4, v5, v6⟩ := r
    simp only [RawRecord.missingReq] at hm
    push_neg at hm
    obtain ⟨h1, h2, h3, h4, h5, h6⟩ := hm
    rcases v1 with _ | vid
    · exact absurd rfl h1
    rcases v2 with _ | ti
    · exact absurd rfl h2
    rcases v3 with _ | ch
    · exact absurd rfl h3
    rcases v4 with _ | du
    · exact absurd rfl h4
    rcases v5 with _ | vw
    · exact absurd rfl h5
    rcases v6 with _ | ur
    · exact absurd rfl h6
    cases hpv : _parse_views vw with
    | ovfl => exact absurd hpv ho
    | val v =>
      rw [saveStep_run query now db vid ti ch du vw ur v hpv] at h
      obtain rfl := Option.some.inj h
      refine ⟨?_, ⟨_, by rw [upsertVideo_snapshots]⟩,
              upsertVideo_tracked db vid ti ch du vw v ur query now⟩
      show (upsertVideo db vid ti ch du vw v ur query now).videos.length
          = db.videos.length + _
      by_cases hpair : hasPair db query vid
      · have hn : ¬ ((db.videos.find? (fun w => decide (w.video_id = vid) &&
            decide (w.query = query))).isNone = true) := by
          intro hx
          exact absurd hpair ((not_hasPair_iff_isNone db query vid).mpr hx)
        rw [upsertVideo_videos_update db vid ti ch du vw v ur query now hpair,
            List.length_map, if_neg hn]
        rfl
      · rw [upsertVideo_videos_insert db vid ti ch du vw v ur query now hpair,
            List.length_append,
            if_pos ((not_hasPair_iff_isNone db query vid).mp hpair)]
        rfl

/-- The loop succeeds whenever no record's views text overflows. -/
theorem saveLoop_isSome (query now : String) :
    ∀ (rs : List RawRecord) (db : DB) (n : Nat),
      (∀ r ∈ rs, ¬ _parse_views (r.views.getD "") = PyRes.ovfl) →
      (saveLoop query now db n rs).isSome = true := by
  intro rs
  induction rs with
  | nil => intro db n _; rfl
  | cons r rest ih =>
    intro db n h
    have hs := saveStep_isSome query now db r (h r (List.mem_cons_self r rest))
    cases hq : saveStep query now db r with
    | none => rw [hq] at hs; exact absurd hs (by simp)
    | some q =>
      show (saveLoop query now db n (r :: rest)).isSome = true
      unfold saveLoop
      rw [hq]
      exact ih q.1 (n + q.2) (fun x hx => h x (List.mem_cons_of_mem r hx))

/-- Whenever the loop completes, the returned counter is the number of rows
the videos table grew by, and the snapshots table only gained rows. -/
theorem saveLoop_effects (query now : String) :
    ∀ (rs : List RawRecord) (db : DB) (n : Nat) (p : DB × Nat),
      saveLoop query now db n rs = some p →
      p.2 = n + (p.1.videos.length - db.videos.length) ∧
      db.videos.length ≤ p.1.videos.length ∧
      (∃ t, p.1.snapshots = db.snapshots ++ t) ∧
      p.1.tracked = db.tracked := by
  intro rs
  induction rs with
  | nil =>
    intro db n p h
    obtain rfl := Option.some.inj h
    exact ⟨by simp, le_refl _, ⟨[], by simp⟩, rfl⟩
  | cons r rest ih =>
    intro db n p h
    unfold saveLoop at h
    cases hq : saveStep query now db r with
    | none => rw [hq] at h; exact Option.noConfusion h
    | some q =>
      rw [hq] at h
      obtain ⟨e1, ⟨t1, e2⟩, e3⟩ := saveStep_effects query now db r q hq
      obtain ⟨f1, f2, ⟨t2, f3⟩, f4⟩ := ih q.1 (n + q.2) p h
      refine ⟨by omega, by omega, ⟨t1 ++ t2, ?_⟩, f4.trans e3⟩
      rw [f3, e2, List.append_assoc]

set_option maxRecDepth 100000 in
/-- C7 counterexample: the claim says `_parse_views` is total and never
raises, but the input "inf" parses to an infinite float and `int(...)`
raises an uncaught `OverflowError` to the caller. -/
theorem C7_overflow_counterexample : _parse_views "inf" = PyRes.ovfl := by decide

set_option maxRecDepth 100000 in
/-- C7 (amended): `_parse_views` behaves exactly as the spec describes the
Metric Parser — placeholders map to unknown, the word "views"
(case-insensitively) and commas are stripped, whitespace trimmed, a k/m/b
suffix multiplies the float value of the prefix by 1e3/1e6/1e9 with
truncation, otherwise the trimmed string is parsed directly, and non-numeric
residue yields unknown — except that it is not exception-free: an input
whose numeric part parses to an infinite float raises OverflowError
(`PyRes.ovfl`) instead of returning.  The spec's concrete examples hold. -/
theorem C7_parse_metric_amended :
    (∀ s : String, _parse_views s = parse_metric_spec s) ∧
    _parse_views "1.2M views" = PyRes.val (some 1200000) ∧
    _parse_views "45,123 views" = PyRes.val (some 45123) ∧
    _parse_views "2B" = PyRes.val (some 2000000000) ∧
    _parse_views "No views" = PyRes.val none ∧
    _parse_views "" = PyRes.val none ∧
    _parse_views "N/A" = PyRes.val none :=
  ⟨parse_views_eq_spec, by decide, by decide, by decide, by decide, by decide, by decide⟩

/-- C1: processing one record with all keys present appends a snapshot
(video_id, parsed views, now) exactly when the parsed metric is non-null and
the pair is new or the metric changed; otherwise no snapshot is appended. -/
theorem C1_snapshot_policy (db : DB) (query now vid ti ch du vw ur : String)
    (pv : Option Int) (hpv : _parse_views vw = PyRes.val pv) :
    ∃ db2 k, saveStep query now db
        { video_id := some vid, title := some ti, channel := some ch,
          duration := some du, views := some vw, url := some ur } = some (db2, k) ∧
      db2.snapshots = db.snapshots ++
        (match pv with
         | some n =>
           if ¬ hasPair db query vid ∨ ¬ some n = storedViews db query vid then
             [{ video_id := vid, views_int := n, recorded_at := now }]
           else []
         | none => []) := by
  refine ⟨_, _, saveStep_run query now db vid ti ch du vw ur pv hpv, ?_⟩
  show (upsertVideo db vid ti ch du vw pv ur query now).snapshots ++ _ = _
  rw [upsertVideo_snapshots]
  congr 1
  cases pv with
  | none => rfl
  | some n =>
    have hiff : (((db.videos.find? (fun v => decide (v.video_id = vid) &&
          decide (v.query = query))).isNone = true)
          ∨ ¬ some n = storedViews db query vid)
        ↔ (¬ hasPair db query vid ∨ ¬ some n = storedViews db query vid) := by
      rw [not_hasPair_iff_isNone]
    exact if_congr hiff rfl rfl

set_option maxRecDepth 100000 in
/-- C1 witness: re-saving ("v1", "q") with metric 5 over stored metric 4
appends exactly the snapshot ("v1", 5, "t1"). -/
theorem C1_snapshot_policy_witness :
    ∃ db2 k, saveStep "q" "t1" exDb3
        { video_id := some "v1", title := some "New", channel := some "c",
          duration := some "d", views := some "5", url := some "u" } = some (db2, k) ∧
      db2.snapshots = exDb3.snapshots ++
        [{ video_id := "v1", views_int := 5, recorded_at := "t1" }] := by
  obtain ⟨db2, k, h1, h2⟩ :=
    C1_snapshot_policy exDb3 "q" "t1" "v1" "New" "c" "d" "5" "u" (some 5) (by decide)
  refine ⟨db2, k, h1, ?_⟩
  rw [h2]
  decide

set_option maxRecDepth 100000 in
/-- C3 counterexample: the claim says a later sighting under the same query
overwrites the title in place, but re-saving ("v1", "q") with the new title
"New" leaves the stored title "Old" untouched (the UPSERT updates only
views, views_int and scraped_at). -/
theorem C3_title_not_overwritten :
    ((save_results [exRec] "q" "t1" exDb3).1.videos.map (fun v => v.title)) = ["Old"] ∧
    exRec.title = some "New" := by decide

/-- C3 (amended): on a known (video_id, query) pair the saved record
overwrites only views_raw, views_int and scraped_at in place — title,
channel, duration and url keep their stored values — and no new row is
created; a sighting under a different (absent) query appends a distinct full
row and is counted as new. -/
theorem C3_upsert_in_place (db : DB) (query now vid ti ch du vw ur : String)
    (pv : Option Int) (hpv : _parse_views vw = PyRes.val pv) :
    (hasPair db query vid →
      ∃ db2, saveStep query now db
          { video_id := some vid, title := some ti, channel := some ch,
            duration := some du, views := some vw, url := some ur } = some (db2, 0) ∧
        db2.videos = db.videos.map (fun v =>
          if v.video_id = vid ∧ v.query = query then
            { v with views := vw, views_int := pv, scraped_at := now }
          else v)) ∧
    (¬ hasPair db query vid →
      ∃ db2, saveStep query now db
          { video_id := some vid, title := some ti, channel := some ch,
            duration := some du, views := some vw, url := some ur } = some (db2, 1) ∧
        db2.videos = db.videos ++
          [{ video_id := vid, title := ti, channel := ch, duration := du,
             views := vw, views_int := pv, url := ur, query := query,
             scraped_at := now }]) := by
  constructor
  · intro hpair
    have hrun := saveStep_run query now db vid ti ch du vw ur pv hpv
    have hk : (if (db.videos.find? (fun v => decide (v.video_id = vid) &&
          decide (v.query = query))).isNone = true then 1 else 0) = 0 :=
      if_neg (fun hx => absurd hpair ((not_hasPair_iff_isNone db query vid).mpr hx))
    rw [hk] at hrun
    refine ⟨_, hrun, ?_⟩
    show (upsertVideo db vid ti ch du vw pv ur query now).videos = _
    exact upsertVideo_videos_update db vid ti ch du vw pv ur query now hpair
  · intro hpair
    have hrun := saveStep_run query now db vid ti ch du vw ur pv hpv
    have hk : (if (db.videos.find? (fun v => decide (v.video_id = vid) &&
          decide (v.query = query))).isNone = true then 1 else 0) = 1 :=
      if_pos ((not_hasPair_iff_isNone db query vid).mp hpair)
    rw [hk] at hrun
    refine ⟨_, hrun, ?_⟩
    show (upsertVideo db vid ti ch du vw pv ur query now).videos = _
    exact upsertVideo_videos_insert db vid ti ch du vw pv ur query now hpair

set_option maxRecDepth 100000 in
/-- C3 witness: the in-place branch at a concrete store. -/
theorem C3_upsert_in_place_witness :
    ∃ db2, saveStep "q" "t1" exDb3
        { video_id := some "v1", title := some "New", channel := some "c",
          duration := some "d", views := some "5", url := some "u" } = some (db2, 0) ∧
      db2.videos = exDb3.videos.map (fun v =>
        if v.video_id = "v1" ∧ v.query = "q" then
          { v with views := "5", views_int := some 5, scraped_at := "t1" }
        else v) :=
  (C3_upsert_in_place exDb3 "q" "t1" "v1" "New" "c" "d" "5" "u" (some 5)
    (by decide)).1 (by decide)

/-- C9: when no record's views text overflows the float parser, the batch
never aborts — a record missing a required key is skipped individually with
the store untouched, the remaining records are still processed, and the
returned count equals the number of (video_id, query) pairs newly created. -/
theorem C9_malformed_record_skipped (results : List RawRecord) (query now : String)
    (db : DB)
    (h : ∀ r ∈ results, ¬ _parse_views (r.views.getD "") = PyRes.ovfl) :
    (save_results results query now db).2
      = some ((save_results results query now db).1.videos.length - db.videos.length) ∧
    (∀ r : RawRecord, r.missingReq → ¬ _parse_views (r.views.getD "") = PyRes.ovfl →
      saveStep query now db r = some (db, 0)) ∧
    (∀ (r : RawRecord) (rest : List RawRecord), r.missingReq →
      ¬ _parse_views (r.views.getD "") = PyRes.ovfl →
      save_results (r :: rest) query now db = save_results rest query now db) := by
  refine ⟨?_, fun r hm ho => saveStep_skip query now db r hm ho, ?_⟩
  · unfold save_results
    have hs := saveLoop_isSome query now results db 0 h
    cases hl : saveLoop query now db 0 results with
    | none =>
      rw [hl] at hs
      exact absurd hs (by simp)
    | some p =>
      obtain ⟨e1, e2, _, _⟩ := saveLoop_effects query now results db 0 p hl
      show some p.2 = some (p.1.videos.length - db.videos.length)
      exact congrArg some (by omega)
  · intro r rest hm ho
    have hstep : saveLoop query now db 0 (r :: rest) = saveLoop query now db 0 rest := by
      show (match saveStep query now db r with
            | none => none
            | some p => saveLoop query now p.1 (0 + p.2) rest)
          = saveLoop query now db 0 rest
      rw [saveStep_skip query now db r hm ho]
      rfl
    unfold save_results
    rw [hstep]

set_option maxRecDepth 100000 in
/-- C9 witness: a batch with one record missing its title and one complete
record returns the count 1 = number of newly created pairs. -/
theorem C9_malformed_record_skipped_witness :
    (save_results [exRecBad, exRec] "q" "t1" exDbEmpty).2
      = some ((save_results [exRecBad, exRec] "q" "t1" exDbEmpty).1.videos.length
          - exDbEmpty.videos.length) :=
  (C9_malformed_record_skipped [exRecBad, exRec] "q" "t1" exDbEmpty (by decide)).1

/-- C10: view snapshots are append-only — `save_results` only ever appends
snapshot rows (and on the aborting OverflowError the uncommitted batch rolls
back, leaving them unchanged), while `add_tracked_query`,
`remove_tracked_query` and `init_db` never touch them.  The read operations
`get_trending`, `get_duplicates` and `get_tracked_queries` are pure
functions of the store and modify nothing by construction. -/
theorem C10_snapshots_append_only (db : DB) (results : List RawRecord)
    (query now : String) :
    (∃ t, (save_results results query now db).1.snapshots = db.snapshots ++ t) ∧
    ((add_tracked_query query db).1).snapshots = db.snapshots ∧
    ((remove_tracked_query query db).1).snapshots = db.snapshots ∧
    (init_db db).snapshots = db.snapshots := by
  refine ⟨?_, ?_, rfl, rfl⟩
  · unfold save_results
    cases hl : saveLoop query now db 0 results with
    | none => exact ⟨[], (List.append_nil db.snapshots).symm⟩
    | some p =>
      obtain ⟨_, _, ht, _⟩ := saveLoop_effects query now results db 0 p hl
      exact ht
  · unfold add_tracked_query
    split <;> rfl

instance : IsTotal TrendRow trendGe :=
  ⟨fun a b => by unfold trendGe; omega⟩

instance : IsTrans TrendRow trendGe :=
  ⟨fun a b c h1 h2 => by unfold trendGe at *; omega⟩

/-- Fewer than two snapshots means no latest/previous pair. -/
theorem latestTwo_length (db : DB) (vid : String) (a b : Snapshot)
    (h : latestTwo db vid = some (a, b)) : 2 ≤ (snapsOf db vid).length := by
  unfold latestTwo at h
  cases hr : rankedOf db vid with
  | nil => rw [hr] at h; exact Option.noConfusion h
  | cons x xs =>
    cases xs with
    | nil => rw [hr] at h; exact Option.noConfusion h
    | cons y ys =>
      have hlen := (List.perm_insertionSort
        (fun a b : Snapshot => strLt a.recorded_at b.recorded_at = false)
        (snapsOf db vid)).length_eq
      unfold rankedOf at hr
      rw [hr] at hlen
      simp at hlen
      omega

/-- Inversion for trending-report membership: every output row arises from
one matching observation row and the video's two most recent snapshots, and
passed the positive-growth filter. -/
theorem mem_get_trending (db : DB) (limit : Nat) (row : TrendRow)
    (h : row ∈ get_trending db limit) :
    ∃ vid a b v, latestTwo db vid = some (a, b) ∧ v ∈ db.videos ∧
      v.video_id = vid ∧ row = mkTrendRow v a.views_int b.views_int ∧
      b.views_int < a.views_int := by
  unfold get_trending at h
  have h1 := List.mem_of_mem_take h
  have h2 := (List.perm_insertionSort trendGe _).mem_iff.mp h1
  obtain ⟨h3, hgt⟩ := List.mem_filter.mp h2
  obtain ⟨inner, hinner, h4⟩ := List.mem_flatten.mp h3
  obtain ⟨vid, hvid, hfv⟩ := List.mem_map.mp hinner
  rw [← hfv] at h4
  cases hlt : latestTwo db vid with
  | none => rw [hlt] at h4; simp at h4
  | some p =>
    rw [hlt] at h4
    obtain ⟨v, hv, hrow⟩ := List.mem_map.mp h4
    obtain ⟨hvmem, hvid2⟩ := List.mem_filter.mp hv
    refine ⟨vid, p.1, p.2, v, ?_, hvmem, of_decide_eq_true hvid2, hrow.symm, ?_⟩
    · rw [hlt]
    · have := of_decide_eq_true hgt
      rw [← hrow] at this
      exact this

/-- C2: every row of `get_trending` comes from a video with at least two
snapshots whose growth between the two most recent snapshots is strictly
positive and equals the reported growth; the report is ordered by growth
descending and holds at most `limit` rows. -/
theorem C2_trending_rows (db : DB) (limit : Nat) :
    (∀ row ∈ get_trending db limit,
      ∃ a b, latestTwo db row.video_id = some (a, b) ∧
        2 ≤ (snapsOf db row.video_id).length ∧
        row.growth = a.views_int - b.views_int ∧ 0 < row.growth) ∧
    (get_trending db limit).Pairwise trendGe ∧
    (get_trending db limit).length ≤ limit := by
  refine ⟨?_, ?_, ?_⟩
  · intro row h
    obtain ⟨vid, a, b, v, hlt, hv, hvid, hrow, hgt⟩ := mem_get_trending db limit row h
    subst hrow
    have hid : (mkTrendRow v a.views_int b.views_int).video_id = vid := hvid
    refine ⟨a, b, ?_, ?_, rfl, ?_⟩
    · rw [hid]
      exact hlt
    · rw [hid]
      exact latestTwo_length db vid a b hlt
    · exact Int.sub_pos.mpr hgt
  · exact List.Pairwise.sublist (List.take_sublist _ _)
      (List.sorted_insertionSort trendGe _)
  · calc (get_trending db limit).length
        ≤ limit := by
          unfold get_trending
          simp [List.length_take]

/-- C2 witness: with snapshots 100 then 200, the report row for v1 reflects
2 snapshots, growth 100 > 0. -/
theorem C2_trending_rows_witness :
    ∃ a b, latestTwo exDb4 exRow4.video_id = some (a, b) ∧
      2 ≤ (snapsOf exDb4 exRow4.video_id).length ∧
      exRow4.growth = a.views_int - b.views_int ∧ 0 < exRow4.growth :=
  (C2_trending_rows exDb4 10).1 exRow4 (by decide)

/-- C4 counterexample: the claim says at most one row per video_id, but a
video observed under two queries yields two trending rows (the SQL join back
to `videos` is on video_id alone). -/
theorem C4_two_rows_per_video :
    (get_trending exDb4 10).countP (fun r => decide (r.video_id = "v1")) = 2 ∧
    (get_trending exDb4 10).length = 2 := by decide

/-- C4 (amended): `get_trending` yields one row per (qualifying video,
matching observation row) — a video observed under several queries can
contribute several rows — and each returned row's display fields (title,
channel, query, url) are all taken from one single matching observation
row. -/
theorem C4_display_fields_one_row (db : DB) (limit : Nat) (row : TrendRow)
    (h : row ∈ get_trending db limit) :
    ∃ v ∈ db.videos, v.video_id = row.video_id ∧ row.title = v.title ∧
      row.channel = v.channel ∧ row.query = v.query ∧ row.url = v.url := by
  obtain ⟨vid, a, b, v, hlt, hv, hvid, hrow, hgt⟩ := mem_get_trending db limit row h
  subst hrow
  exact ⟨v, hv, rfl, rfl, rfl, rfl, rfl⟩

/-- C4 witness at a concrete row. -/
theorem C4_display_fields_one_row_witness :
    ∃ v ∈ exDb4.videos, v.video_id = exRow4.video_id ∧ exRow4.title = v.title ∧
      exRow4.channel = v.channel ∧ exRow4.query = v.query ∧ exRow4.url = v.url :=
  C4_display_fields_one_row exDb4 10 exRow4 (by decide)

/-- C8: in every trending row, growth is the difference of the two snapshot
values, and the percentage is NULL exactly when the previous value is 0
(divide-by-zero guard), otherwise the rounded percentage (in hundredths). -/
theorem C8_growth_pct_guard (db : DB) (limit : Nat) (row : TrendRow)
    (h : row ∈ get_trending db limit) :
    row.growth = row.latest_views - row.prev_views ∧
    (row.prev_views = 0 → row.growth_pct = none) ∧
    (¬ row.prev_views = 0 →
      row.growth_pct
        = some (roundHalfZ (10000 * (row.latest_views - row.prev_views))
            row.prev_views)) := by
  obtain ⟨vid, a, b, v, hlt, hv, hvid, hrow, hgt⟩ := mem_get_trending db limit row h
  subst hrow
  refine ⟨rfl, ?_, ?_⟩
  · intro hz
    have hz2 : b.views_int = 0 := hz
    show (if b.views_int = 0 then none else _) = none
    rw [if_pos hz2]
  · intro hz
    have hz2 : ¬ b.views_int = 0 := hz
    show (if b.views_int = 0 then none else _) = _
    rw [if_neg hz2]
    rfl

/-- C8 witness: previous snapshot 0, latest 500 — growth 500 is reported and
the percentage is NULL, no error and nothing infinite. -/
theorem C8_growth_pct_guard_witness :
    exRow8.growth = exRow8.latest_views - exRow8.prev_views ∧
    exRow8.growth_pct = none :=
  ⟨(C8_growth_pct_guard exDb8 10 exRow8 (by decide)).1,
   (C8_growth_pct_guard exDb8 10 exRow8 (by decide)).2.1 rfl⟩

theorem optLeI_total (x y : Option Int) : optLeI x y ∨ optLeI y x := by
  rcases x with _ | a <;> rcases y with _ | b <;> simp [optLeI] <;> omega

theorem optLeI_trans (x y z : Option Int) (h1 : optLeI x y) (h2 : optLeI y z) :
    optLeI x z := by
  rcases x with _ | a <;> rcases y with _ | b <;> rcases z with _ | c <;>
    simp_all [optLeI] <;> omega

instance : IsTotal DupRow dupGe :=
  ⟨fun a b => by
    unfold dupGe
    rcases Nat.lt_trichotomy b.query_count a.query_count with h | h | h
    · exact Or.inl (Or.inl h)
    · rcases optLeI_total b.views_int a.views_int with h2 | h2
      · exact Or.inl (Or.inr ⟨h, h2⟩)
      · exact Or.inr (Or.inr ⟨h.symm, h2⟩)
    · exact Or.inr (Or.inl h)⟩

instance : IsTrans DupRow dupGe :=
  ⟨fun a b c h1 h2 => by
    unfold dupGe at *
    rcases h1 with h1 | ⟨h1a, h1b⟩
    · rcases h2 with h2 | ⟨h2a, h2b⟩
      · exact Or.inl (by omega)
      · exact Or.inl (by omega)
    · rcases h2 with h2 | ⟨h2a, h2b⟩
      · exact Or.inl (by omega)
      · exact Or.inr ⟨by omega, optLeI_trans _ _ _ h2b h1b⟩⟩

/-- Every generated duplicates row carries its group's video_id. -/
theorem dupRowFor_video_id (db : DB) (vid : String) (r : DupRow)
    (h : dupRowFor db vid = some r) : r.video_id = vid := by
  unfold dupRowFor at h
  split at h
  · obtain rfl := Option.some.inj h
    rfl
  · exact Option.noConfusion h

/-- A duplicates row exists for a video exactly when it spans more than one
distinct query. -/
theorem dupRowFor_isSome_iff (db : DB) (vid : String) :
    (dupRowFor db vid).isSome = true ↔ 1 < distinctQueryCount db vid := by
  unfold dupRowFor
  split <;> rename_i hcond <;> simp [hcond]

/-- Full characterization of a generated duplicates row. -/
theorem dupRowFor_inv (db : DB) (vid : String) (row : DupRow)
    (h : dupRowFor db vid = some row) :
    1 < distinctQueryCount db vid ∧
    row = { video_id := vid,
            title := maxStr ((grpOf db vid).map (fun v => v.title)),
            channel := maxStr ((grpOf db vid).map (fun v => v.channel)),
            views_int := maxOptInt ((grpOf db vid).map (fun v => v.views_int)),
            views := maxStr ((grpOf db vid).map (fun v => v.views)),
            query_count := distinctQueryCount db vid,
            queries := String.intercalate ","
              (((grpOf db vid).map (fun v => v.query)).dedup),
            url := maxStr ((grpOf db vid).map (fun v => v.url)) } := by
  unfold dupRowFor at h
  split at h
  · rename_i hcond
    exact ⟨hcond, (Option.some.inj h).symm⟩
  · exact Option.noConfusion h

/-- Counting rows with a given video_id in the grouped output: one when the
video appears and qualifies, zero otherwise. -/
theorem countP_filterMap_dupRow (db : DB) (vids : List String) (hnd : vids.Nodup)
    (vid : String) :
    (vids.filterMap (dupRowFor db)).countP (fun r => decide (r.video_id = vid))
      = if vid ∈ vids ∧ (dupRowFor db vid).isSome = true then 1 else 0 := by
  induction vids with
  | nil => simp
  | cons v vs ih =>
    obtain ⟨hnv, hnd2⟩ := List.nodup_cons.mp hnd
    by_cases hvv : vid = v
    · subst hvv
      cases hf : dupRowFor db vid with
      | none =>
        have h1 : ¬ (vid ∈ vs ∧ (dupRowFor db vid).isSome = true) :=
          fun hx => hnv hx.1
        have h2 : ¬ (vid ∈ vid :: vs ∧ (Option.isSome (none : Option DupRow)) = true) := by
          intro hx
          exact Bool.noConfusion hx.2
        rw [List.filterMap_cons_none hf, ih hnd2, if_neg h1, if_neg h2]
      | some r =>
        have hrv := dupRowFor_video_id db vid r hf
        have h1 : ¬ (vid ∈ vs ∧ (dupRowFor db vid).isSome = true) :=
          fun hx => hnv hx.1
        have h2 : vid ∈ vid :: vs ∧ (Option.isSome (some r)) = true :=
          ⟨List.mem_cons_self vid vs, rfl⟩
        rw [List.filterMap_cons_some hf, List.countP_cons, ih hnd2, if_neg h1,
            if_pos h2]
        simp [hrv]
    · have hcongr : (vid ∈ v :: vs ∧ (dupRowFor db vid).isSome = true)
          ↔ (vid ∈ vs ∧ (dupRowFor db vid).isSome = true) := by
        simp [List.mem_cons, hvv]
      cases hf : dupRowFor db v with
      | none =>
        rw [List.filterMap_cons_none hf, ih hnd2, if_congr hcongr rfl rfl]
      | some r =>
        have hrv := dupRowFor_video_id db v r hf
        have hfalse : (decide (r.video_id = vid)) = false := by
          rw [hrv]
          simp
          exact fun hx => hvv hx.symm
        rw [List.filterMap_cons_some hf, List.countP_cons, ih hnd2,
            if_congr hcongr rfl rfl]
        simp [hfalse]

/-- Membership inversion for the duplicates report. -/
theorem mem_get_duplicates (db : DB) (row : DupRow) (h : row ∈ get_duplicates db) :
    ∃ vid, dupRowFor db vid = some row := by
  unfold get_duplicates at h
  have h2 := (List.perm_insertionSort dupGe _).mem_iff.mp h
  obtain ⟨vid, _, hf⟩ := List.mem_filterMap.mp h2
  exact ⟨vid, hf⟩

/-- A qualifying group is nonempty. -/
theorem grpOf_ne_nil (db : DB) (vid : String) (h : 1 < distinctQueryCount db vid) :
    grpOf db vid ≠ [] := by
  intro hx
  unfold distinctQueryCount at h
  rw [hx] at h
  simp at h

/-- A qualifying video is listed in the videos table. -/
theorem mem_map_video_id (db : DB) (vid : String)
    (h : 1 < distinctQueryCount db vid) :
    vid ∈ db.videos.map (fun v => v.video_id) := by
  have hne := grpOf_ne_nil db vid h
  cases hg : grpOf db vid with
  | nil => exact absurd hg hne
  | cons g gs =>
    have hgmem : g ∈ grpOf db vid := by
      rw [hg]
      exact List.mem_cons_self g gs
    obtain ⟨hmem, hp⟩ := List.mem_filter.mp hgmem
    exact List.mem_map.mpr ⟨g, hmem, of_decide_eq_true hp⟩

/-- The TEXT MAX of two values is one of them. -/
theorem strMax_choice (a b : String) : strMax a b = a ∨ strMax a b = b := by
  unfold strMax
  split
  · exact Or.inr rfl
  · exact Or.inl rfl

/-- A string MAX fold yields its seed or one of the folded elements. -/
theorem foldl_strMax_mem (c : String) (l : List String) :
    l.foldl strMax c = c ∨ l.foldl strMax c ∈ l := by
  induction l generalizing c with
  | nil => exact Or.inl rfl
  | cons x xs ih =>
    rw [List.foldl_cons]
    rcases ih (strMax c x) with h | h
    · rcases strMax_choice c x with h2 | h2
      · exact Or.inl (h.trans h2)
      · refine Or.inr ?_
        rw [h, h2]
        exact List.mem_cons_self x xs
    · exact Or.inr (List.mem_cons_of_mem x h)

/-- The TEXT MAX aggregate of a nonempty column is one of its values. -/
theorem maxStr_attained (l : List String) (h : l ≠ []) : maxStr l ∈ l := by
  cases l with
  | nil => exact absurd rfl h
  | cons c r =>
    show r.foldl strMax c ∈ c :: r
    rcases foldl_strMax_mem c r with h2 | h2
    · rw [h2]
      exact List.mem_cons_self c r
    · exact List.mem_cons_of_mem c h2

/-- NULL is the identity of the nullable-INTEGER MAX. -/
theorem optIntMax_none (x : Option Int) : optIntMax none x = x := by
  rcases x with _ | a <;> rfl

/-- The nullable-INTEGER MAX of two values is one of them. -/
theorem optIntMax_choice (x y : Option Int) :
    optIntMax x y = x ∨ optIntMax x y = y := by
  rcases x with _ | a
  · exact Or.inr (optIntMax_none y)
  · rcases y with _ | b
    · exact Or.inl rfl
    · show some (max a b) = some a ∨ some (max a b) = some b
      rcases max_choice a b with h | h
      · exact Or.inl (by rw [h])
      · exact Or.inr (by rw [h])

/-- A nullable-INTEGER MAX fold yields its seed or one of the elements. -/
theorem foldl_optIntMax_mem (c : Option Int) (l : List (Option Int)) :
    l.foldl optIntMax c = c ∨ l.foldl optIntMax c ∈ l := by
  induction l generalizing c with
  | nil => exact Or.inl rfl
  | cons x xs ih =>
    rw [List.foldl_cons]
    rcases ih (optIntMax c x) with h | h
    · rcases optIntMax_choice c x with h2 | h2
      · exact Or.inl (h.trans h2)
      · refine Or.inr ?_
        rw [h, h2]
        exact List.mem_cons_self x xs
    · exact Or.inr (List.mem_cons_of_mem x h)

/-- The INTEGER MAX aggregate of a nonempty column is one of its values. -/
theorem maxOptInt_attained (l : List (Option Int)) (h : l ≠ []) : maxOptInt l ∈ l := by
  cases l with
  | nil => exact absurd rfl h
  | cons x xs =>
    show (x :: xs).foldl optIntMax none ∈ x :: xs
    rw [List.foldl_cons, optIntMax_none]
    rcases foldl_optIntMax_mem x xs with h2 | h2
    · rw [h2]
      exact List.mem_cons_self x xs
    · exact List.mem_cons_of_mem x h2

/-- The TEXT MAX over one column of a video's group equals that column of
some observation row of the video. -/
theorem maxStr_grp_attained (db : DB) (vid : String) (h : grpOf db vid ≠ [])
    (f : VideoRow → String) :
    ∃ r ∈ db.videos, r.video_id = vid ∧ maxStr ((grpOf db vid).map f) = f r := by
  have hne2 : (grpOf db vid).map f ≠ [] := by
    intro hx
    exact h (List.map_eq_nil.mp hx)
  obtain ⟨r, hr, heq⟩ := List.mem_map.mp (maxStr_attained _ hne2)
  obtain ⟨hmem, hp⟩ := List.mem_filter.mp hr
  exact ⟨r, hmem, of_decide_eq_true hp, heq.symm⟩

/-- The INTEGER MAX over the metric column of a video's group equals that
column of some observation row of the video. -/
theorem maxOptInt_grp_attained (db : DB) (vid : String) (h : grpOf db vid ≠ []) :
    ∃ r ∈ db.videos, r.video_id = vid ∧
      maxOptInt ((grpOf db vid).map (fun v => v.views_int)) = r.views_int := by
  have hne2 : (grpOf db vid).map (fun v => v.views_int) ≠ [] := by
    intro hx
    exact h (List.map_eq_nil.mp hx)
  obtain ⟨r, hr, heq⟩ := List.mem_map.mp (maxOptInt_attained _ hne2)
  obtain ⟨hmem, hp⟩ := List.mem_filter.mp hr
  exact ⟨r, hmem, of_decide_eq_true hp, heq.symm⟩

/-- C5: the duplicates report holds exactly one row per video observed under
more than one distinct query, whose query_count is that video's number of
distinct queries; single-query videos never appear; the rows are ordered by
query_count descending then views_int descending. -/
theorem C5_duplicates_report (db : DB) :
    (∀ row ∈ get_duplicates db,
      row.query_count = distinctQueryCount db row.video_id ∧ 1 < row.query_count) ∧
    (∀ vid : String, 1 < distinctQueryCount db vid →
      (get_duplicates db).countP (fun r => decide (r.video_id = vid)) = 1) ∧
    (∀ vid : String, distinctQueryCount db vid ≤ 1 →
      (get_duplicates db).countP (fun r => decide (r.video_id = vid)) = 0) ∧
    (get_duplicates db).Pairwise dupGe := by
  have hperm : ∀ p : DupRow → Bool,
      (get_duplicates db).countP p
        = ((db.videos.map (fun v => v.video_id)).dedup.filterMap (dupRowFor db)).countP p :=
    fun p => (List.perm_insertionSort dupGe _).countP_eq p
  refine ⟨?_, ?_, ?_, ?_⟩
  · intro row h
    obtain ⟨vid, hf⟩ := mem_get_duplicates db row h
    obtain ⟨hlt, hrow⟩ := dupRowFor_inv db vid row hf
    subst hrow
    exact ⟨rfl, hlt⟩
  · intro vid hv
    rw [hperm _, countP_filterMap_dupRow db _ (List.nodup_dedup _) vid,
        if_pos ⟨List.mem_dedup.mpr (mem_map_video_id db vid hv),
                (dupRowFor_isSome_iff db vid).mpr hv⟩]
  · intro vid hv
    rw [hperm _, countP_filterMap_dupRow db _ (List.nodup_dedup _) vid, if_neg]
    intro hx
    have := (dupRowFor_isSome_iff db vid).mp hx.2
    omega
  · exact List.sorted_insertionSort dupGe _

/-- C5 witness: v1 (two queries) contributes exactly one row with
query_count 2, v2 (one query) contributes none. -/
theorem C5_duplicates_report_witness :
    (get_duplicates exDb5).countP (fun r => decide (r.video_id = "v1")) = 1 ∧
    (get_duplicates exDb5).countP (fun r => decide (r.video_id = "v2")) = 0 :=
  ⟨(C5_duplicates_report exDb5).2.1 "v1" (by decide),
   (C5_duplicates_report exDb5).2.2.1 "v2" (by decide)⟩

/-- C6 counterexample: the claim says all display fields of a duplicates row
come from one single observation row, but for v1 the output combines the
title of one row with the url of the other — no single row carries that
combination (each column is an independent SQL MAX). -/
theorem C6_fields_mix_rows :
    (get_duplicates exDb5).countP
        (fun r => decide (r.video_id = "v1" ∧ r.title = "B" ∧ r.url = "z")) = 1 ∧
    (∀ v ∈ exDb5.videos, ¬ (v.title = "B" ∧ v.url = "z")) := by decide

/-- C6 (amended): each display field of a duplicates row is, per column, the
value of some observation row in that video's group (the SQL MAX of the
column) — but different columns may come from different rows. -/
theorem C6_display_per_column (db : DB) (row : DupRow)
    (h : row ∈ get_duplicates db) :
    (∃ r ∈ db.videos, r.video_id = row.video_id ∧ row.title = r.title) ∧
    (∃ r ∈ db.videos, r.video_id = row.video_id ∧ row.channel = r.channel) ∧
    (∃ r ∈ db.videos, r.video_id = row.video_id ∧ row.views_int = r.views_int) ∧
    (∃ r ∈ db.videos, r.video_id = row.video_id ∧ row.views = r.views) ∧
    (∃ r ∈ db.videos, r.video_id = row.video_id ∧ row.url = r.url) := by
  obtain ⟨vid, hf⟩ := mem_get_duplicates db row h
  obtain ⟨hlt, hrow⟩ := dupRowFor_inv db vid row hf
  have hne := grpOf_ne_nil db vid hlt
  subst hrow
  exact ⟨maxStr_grp_attained db vid hne (fun v => v.title),
         maxStr_grp_attained db vid hne (fun v => v.channel),
         maxOptInt_grp_attained db vid hne,
         maxStr_grp_attained db vid hne (fun v => v.views),
         maxStr_grp_attained db vid hne (fun v => v.url)⟩

/-- C6 witness at the concrete mixed-field row of `exDb5`. -/
theorem C6_display_per_column_witness :
    (∃ r ∈ exDb5.videos, r.video_id = exDup5.video_id ∧ exDup5.title = r.title) ∧
    (∃ r ∈ exDb5.videos, r.video_id = exDup5.video_id ∧ exDup5.channel = r.channel) ∧
    (∃ r ∈ exDb5.videos, r.video_id = exDup5.video_id ∧ exDup5.views_int = r.views_int) ∧
    (∃ r ∈ exDb5.videos, r.video_id = exDup5.video_id ∧ exDup5.views = r.views) ∧
    (∃ r ∈ exDb5.videos, r.video_id = exDup5.video_id ∧ exDup5.url = r.url) :=
  C6_display_per_column exDb5 exDup5 (by decide)
